import Mathlib

/-!
Verification of the GlucoSwap conversion-and-history engine.

The definitions below are a shallow embedding of the state logic shared by
the two screen variants (`src/app/(tabs)/index.native.tsx` and the web screen
`src/unnamed/part_000`, i.e. `GlucoSwapScreen.web.tsx`).  JavaScript numbers
are modelled as exact rationals (`ℚ`); timestamps as `Nat` milliseconds.
Where the two variants differ the doc comment of the definition names the
variant it embeds.
-/

namespace GlucoSwap

/-- `CONVERSION_FACTOR = 18.0182` (both variants, top of file). -/
def CONVERSION_FACTOR : ℚ := 18.0182

/-- `MAX_HISTORY_ITEMS_DISPLAYED = 100`. -/
def MAX_HISTORY_ITEMS_DISPLAYED : Nat := 100

/-- `MAX_HISTORY_ITEMS_RENDERED = 20`. -/
def MAX_HISTORY_ITEMS_RENDERED : Nat := 20

/-- `MIN_POINTS_FOR_CHART = 2`. -/
def MIN_POINTS_FOR_CHART : Nat := 2

/-- `MAX_CHART_LABELS = 6`. -/
def MAX_CHART_LABELS : Nat := 6

/-- The source type `type Unit = 'mg/dL' | 'mmol/L'`.  Named `Unit'` because
`Unit` collides with the Lean core type of that name. -/
inductive Unit' where
  | mgdl
  | mmol
deriving DecidableEq, Repr

/-- The source `interface HistoryItem { id; timestamp; mgdlValue; mmolValue }`. -/
structure HistoryItem where
  id : String
  timestamp : Nat
  mgdlValue : ℚ
  mmolValue : ℚ
deriving DecidableEq, Repr

/-- Result pair of a unit conversion (the two locals `mgdlValue`, `mmolValue`
computed inside `handleConvert`). -/
structure ConvResult where
  mgdlValue : ℚ
  mmolValue : ℚ
deriving DecidableEq, Repr

/-- The conversion arithmetic of `handleConvert`
(`index.native.tsx` lines 124-132, identical in the web variant):
if the selected unit is mg/dL the value is taken as mg/dL and divided by
`CONVERSION_FACTOR` to get mmol/L, otherwise multiplied. -/
def convert (value : ℚ) (sourceUnit : Unit') : ConvResult :=
  match sourceUnit with
  | Unit'.mgdl => ⟨value, value / CONVERSION_FACTOR⟩
  | Unit'.mmol => ⟨value * CONVERSION_FACTOR, value⟩

/-- Outcome of JavaScript `parseFloat`: NaN, ±Infinity, or a numeric value
(kept as an exact rational; IEEE-754 rounding and exponent overflow of doubles
are not modelled — no claim depends on them). -/
inductive JSNum where
  | nan
  | inf
  | neginf
  | num (q : ℚ)
deriving DecidableEq, Repr

/-- Leading-whitespace skipping performed by JavaScript `parseFloat`. -/
def skipWs : List Char → List Char
  | [] => []
  | c :: cs =>
    if c = ' ' ∨ c = '\t' ∨ c = '\n' ∨ c = '\r' then skipWs cs else c :: cs

/-- Scan a maximal run of decimal digits: returns the accumulated value, the
number of digits consumed, and the rest of the input. -/
def digitsAux (acc : Nat) (cnt : Nat) : List Char → Nat × Nat × List Char
  | [] => (acc, cnt, [])
  | c :: cs =>
    if c.isDigit then digitsAux (acc * 10 + (c.toNat - 48)) (cnt + 1) cs
    else (acc, cnt, c :: cs)

/-- Exponent part of a JavaScript float literal (`e`/`E`, optional sign,
digits); a malformed exponent part contributes exponent 0, as `parseFloat`
then stops before the `e`. -/
def expAux : List Char → Int
  | [] => 0
  | c :: cs =>
    if c = 'e' ∨ c = 'E' then
      match cs with
      | '+' :: ds =>
        (fun t => if t.2.1 = 0 then 0 else (t.1 : Int)) (digitsAux 0 0 ds)
      | '-' :: ds =>
        (fun t => if t.2.1 = 0 then 0 else -(t.1 : Int)) (digitsAux 0 0 ds)
      | ds =>
        (fun t => if t.2.1 = 0 then 0 else (t.1 : Int)) (digitsAux 0 0 ds)
    else 0

/-- Unsigned decimal literal: digits, optional `.digits`, optional exponent.
`none` when no digit occurs before the exponent (parseFloat yields NaN). -/
def parseUnsigned (cs : List Char) : Option ℚ :=
  let ipart := digitsAux 0 0 cs
  let fpart :=
    match ipart.2.2 with
    | '.' :: cs2 => digitsAux 0 0 cs2
    | r1 => (0, 0, r1)
  if ipart.2.1 + fpart.2.1 = 0 then none
  else
    some (((ipart.1 : ℚ) + (fpart.1 : ℚ) / (10 : ℚ) ^ fpart.2.1)
      * (10 : ℚ) ^ expAux fpart.2.2)

/-- Whether the second list starts with the first one. -/
def beginsWith : List Char → List Char → Bool
  | [], _ => true
  | _ :: _, [] => false
  | p :: ps, c :: cs => p = c && beginsWith ps cs

/-- Magnitude part after the optional sign: the literal `Infinity` or an
unsigned decimal literal. -/
def parseMag (cs : List Char) (neg : Bool) : JSNum :=
  if beginsWith ['I', 'n', 'f', 'i', 'n', 'i', 't', 'y'] cs then
    if neg then JSNum.neginf else JSNum.inf
  else
    match parseUnsigned cs with
    | none => JSNum.nan
    | some q => JSNum.num (if neg then -q else q)

/-- Optional sign then magnitude. -/
def parseSigned : List Char → JSNum
  | '+' :: rest => parseMag rest false
  | '-' :: rest => parseMag rest true
  | cs => parseMag cs false

/-- Model of JavaScript `parseFloat`: skip leading whitespace, optional sign,
then the longest numeric prefix (`Infinity` accepted); NaN when no numeric
prefix exists.  Trailing non-numeric characters are ignored. -/
def parseFloatJS (s : String) : JSNum :=
  parseSigned (skipWs s.data)

/-- `isInputValid` (both variants): `!isNaN(parseFloat(v)) && v > 0`.
In JavaScript `Infinity > 0` is true and `isNaN(Infinity)` is false, so a
parse result of positive Infinity counts as valid. -/
def isInputValid (s : String) : Bool :=
  match parseFloatJS s with
  | JSNum.nan => false
  | JSNum.inf => true
  | JSNum.neginf => false
  | JSNum.num q => decide (0 < q)

/-- Refinement definition written from the spec's words for claim C8
("the input string parses as a finite number and is strictly greater than
0"): the parse result must be a finite value strictly greater than 0. -/
def specValid (s : String) : Bool :=
  match parseFloatJS s with
  | JSNum.num q => decide (0 < q)
  | _ => false

/-- The history-append of `handleConvert`
(`setHistory(prev => [newEntry, ...prev].slice(0, MAX_HISTORY_ITEMS_DISPLAYED))`):
prepend the new item, then keep the first 100 items. -/
def appendHistory (item : HistoryItem) (h : List HistoryItem) : List HistoryItem :=
  (item :: h).take MAX_HISTORY_ITEMS_DISPLAYED

/-- A sequence of appends, performed left to right (so the list of items is
in chronological append order, oldest first). -/
def applyAppends (items : List HistoryItem) (h : List HistoryItem) : List HistoryItem :=
  items.foldl (fun acc it => appendHistory it acc) h

/-- Newest-first ordering by timestamp: each element's timestamp is at least
that of every later element. -/
def newestFirst (h : List HistoryItem) : Prop :=
  h.Pairwise (fun a b => b.timestamp ≤ a.timestamp)

/-- Timestamps nondecreasing in append order (successive `Date.now()` calls
never go backwards). -/
def timestampsMono (items : List HistoryItem) : Prop :=
  items.Pairwise (fun a b => a.timestamp ≤ b.timestamp)

instance (h : List HistoryItem) : Decidable (newestFirst h) :=
  inferInstanceAs
    (Decidable (h.Pairwise (fun a b : HistoryItem => b.timestamp ≤ a.timestamp)))

instance (items : List HistoryItem) : Decidable (timestampsMono items) :=
  inferInstanceAs
    (Decidable (items.Pairwise (fun a b : HistoryItem => a.timestamp ≤ b.timestamp)))

/-- Numeric value `handleConvert` works with after its validity guard.
A non-finite parse result (reachable only for `Infinity`-style input) is not
representable in `ℚ` and is mapped to 0; theorems about `handleConvert` only
use its guard and the finite path. -/
def jsToRat : JSNum → ℚ
  | JSNum.num q => q
  | _ => 0

/-- `handleConvert` (both variants): no-op unless `isInputValid`, otherwise
parse the value, convert it with the selected unit, and append a new
`HistoryItem` stamped with the current time. -/
def handleConvert (input : String) (selectedUnit : Unit') (now : Nat)
    (history : List HistoryItem) : List HistoryItem :=
  if isInputValid input then
    appendHistory
      ⟨toString now, now,
        (convert (jsToRat (parseFloatJS input)) selectedUnit).mgdlValue,
        (convert (jsToRat (parseFloatJS input)) selectedUnit).mmolValue⟩
      history
  else history

/-- Comparison used by the chart sort `(a, b) => a.timestamp - b.timestamp`. -/
def tsLe (a b : HistoryItem) : Prop :=
  a.timestamp ≤ b.timestamp

instance : DecidableRel tsLe :=
  fun a b => Nat.decLe a.timestamp b.timestamp

/-- `const sortedHistory = [...history].sort((a, b) => a.timestamp - b.timestamp)`.
The JavaScript array sort is required to be stable, and a stable sort's
output is uniquely determined by the comparator, so any stable sort embeds
it faithfully; `insertionSort` is stable. -/
def sortHist (h : List HistoryItem) : List HistoryItem :=
  h.insertionSort tsLe

/-- `chartYUnit`: the unit charted is the one opposite the selected input
unit (`selectedUnit === 'mg/dL' ? 'mmol/L' : 'mg/dL'`). -/
def oppositeUnit : Unit' → Unit'
  | Unit'.mgdl => Unit'.mmol
  | Unit'.mmol => Unit'.mgdl

/-- `const yValue = chartYUnit === 'mg/dL' ? item.mgdlValue : item.mmolValue`. -/
def yVal (chartYUnit : Unit') (item : HistoryItem) : ℚ :=
  match chartYUnit with
  | Unit'.mgdl => item.mgdlValue
  | Unit'.mmol => item.mmolValue

/-- The first label-inclusion test of the `forEach` in `chartKitData`:
`index === 0 || index === sortedHistory.length - 1 || index % step === 0`. -/
def keepIndex (n step idx : Nat) : Bool :=
  (idx == 0) || (idx == n - 1) || (idx % step == 0)

/-- The `forEach` loop of `chartKitData` (`index.native.tsx` lines 204-213):
walk the sorted history with its index, pushing a label and a data point when
the index passes `keepIndex`, or unconditionally when the whole series has at
most `MAX_CHART_LABELS` entries.  `n` is `sortedHistory.length`. -/
def thinLoop (fmt : Nat → String) (cu : Unit') (n step : Nat) :
    List HistoryItem → Nat → List String × List ℚ
  | [], _ => ([], [])
  | item :: rest, idx =>
    if keepIndex n step idx then
      (fmt item.timestamp :: (thinLoop fmt cu n step rest (idx + 1)).1,
       yVal cu item :: (thinLoop fmt cu n step rest (idx + 1)).2)
    else if n ≤ MAX_CHART_LABELS then
      (fmt item.timestamp :: (thinLoop fmt cu n step rest (idx + 1)).1,
       yVal cu item :: (thinLoop fmt cu n step rest (idx + 1)).2)
    else
      thinLoop fmt cu n step rest (idx + 1)

/-- Default used to read `sortedHistory[0]` / `sortedHistory[len - 1]`; the
code only reaches those reads with a nonempty sorted history (guarded by
`MIN_POINTS_FOR_CHART`), where the default is irrelevant. -/
def dfltItem : HistoryItem :=
  ⟨"", 0, 0, 0⟩

/-- First half of the forced-endpoint pass of `chartKitData`
(`index.native.tsx` lines 216-220): if the first label differs from the
chronologically first point's label, unshift that point's label and value. -/
def forceFirst (fmt : Nat → String) (cu : Unit') (sorted : List HistoryItem)
    (p : List String × List ℚ) : List String × List ℚ :=
  if p.1.headD ("") ≠ fmt (sorted.headD dfltItem).timestamp then
    (fmt (sorted.headD dfltItem).timestamp :: p.1,
     yVal cu (sorted.headD dfltItem) :: p.2)
  else p

/-- Second half of the forced-endpoint pass (`index.native.tsx` lines
221-225): if the (possibly updated) last label differs from the
chronologically last point's label, push that point's label and value. -/
def forceLast (fmt : Nat → String) (cu : Unit') (sorted : List HistoryItem)
    (p : List String × List ℚ) : List String × List ℚ :=
  if p.1.getLastD ("") ≠ fmt (sorted.getLastD dfltItem).timestamp then
    (p.1 ++ [fmt (sorted.getLastD dfltItem).timestamp],
     p.2 ++ [yVal cu (sorted.getLastD dfltItem)])
  else p

/-- The forced-endpoint pass of `chartKitData` (`index.native.tsx` lines
215-226): when the thinned lists are nonempty, force the first and then the
last chronological point as described above. -/
def forceEndpoints (fmt : Nat → String) (cu : Unit') (sorted : List HistoryItem)
    (labels : List String) (dataPoints : List ℚ) : List String × List ℚ :=
  if 0 < labels.length ∧ 0 < dataPoints.length then
    forceLast fmt cu sorted (forceFirst fmt cu sorted (labels, dataPoints))
  else (labels, dataPoints)

/-- Body of `chartKitData` after its minimum-data guard, taking the already
sorted history: compute `step = max(1, floor(length / MAX_CHART_LABELS))`,
run the thinning loop, force the endpoints, truncate the labels to the length
of the data points, and give up (`null`) if fewer than `MIN_POINTS_FOR_CHART`
labels remain. -/
def chartCore (fmt : Nat → String) (cu : Unit') (sorted : List HistoryItem) :
    Option (List String × List ℚ) :=
  let step := max 1 (sorted.length / MAX_CHART_LABELS)
  let t := thinLoop fmt cu sorted.length step sorted 0
  let f := forceEndpoints fmt cu sorted t.1 t.2
  let finalLabels := f.1.take f.2.length
  if finalLabels.length < MIN_POINTS_FOR_CHART then none
  else some (finalLabels, f.2)

/-- `chartKitData` of the native variant (`index.native.tsx` lines 194-243):
`null` when the history has fewer than `MIN_POINTS_FOR_CHART` entries,
otherwise the label-thinned series over the chronologically sorted history,
charted in the unit opposite the selected one.  `fmt` abstracts the
locale-dependent `formatTimestampForChart`. -/
def chartKitData (fmt : Nat → String) (selectedUnit : Unit')
    (history : List HistoryItem) : Option (List String × List ℚ) :=
  if history.length < MIN_POINTS_FOR_CHART then none
  else chartCore fmt (oppositeUnit selectedUnit) (sortHist history)

/-- The web variant's `interface ChartDataPoint`. -/
structure ChartDataPoint where
  timestamp : Nat
  timeLabel : String
  mgdlValue : ℚ
  mmolValue : ℚ
  yValue : ℚ
deriving DecidableEq, Repr

/-- The per-item mapping of the web variant's `rechartsData`. -/
def mkChartPoint (fmt : Nat → String) (cu : Unit') (item : HistoryItem) :
    ChartDataPoint :=
  ⟨item.timestamp, fmt item.timestamp, item.mgdlValue, item.mmolValue,
    yVal cu item⟩

/-- `rechartsData` of the web variant (`part_000` lines 203-216): `null`
below the minimum-data threshold, otherwise the full sorted series with no
down-sampling, charted in the opposite unit. -/
def rechartsData (fmt : Nat → String) (selectedUnit : Unit')
    (history : List HistoryItem) : Option (List ChartDataPoint) :=
  if history.length < MIN_POINTS_FOR_CHART then none
  else some ((sortHist history).map (mkChartPoint fmt (oppositeUnit selectedUnit)))

/-- What the persisted slot can hold, classified by how the load code's case
split treats it.  `JSON.parse` and `Array.isArray` are external collaborators;
their outcome on the slot text selects the constructor: `unparseable` for text
`JSON.parse` throws on (e.g. the raw nine characters `not a list`),
`parsedNonList` for text that parses to a non-array JSON value (e.g. the slot
text `"not a list"` including the quote characters, which parses to a JSON
string), and `parsedList` for a serialized item list. -/
inductive StoredContent where
  | absent
  | unparseable (s : String)
  | parsedNonList (s : String)
  | parsedList (l : List HistoryItem)
deriving DecidableEq, Repr

/-- Outcome of the initial load: the resulting in-memory history, whether the
persisted slot was erased, and whether the error alert was shown. -/
structure LoadResult where
  history : List HistoryItem
  slotErased : Bool
  errorAlerted : Bool
deriving DecidableEq, Repr

/-- The load `useEffect` of the web variant (`part_000` lines 66-89): absent
slot starts empty; a parsed array is truncated to the first 100 items; a
parsed non-array empties the history and removes the slot; a parse failure
lands in the `catch`, which alerts and empties the history without removing
the slot.  Every branch terminates normally (no exception escapes). -/
def loadHistory : StoredContent → LoadResult
  | StoredContent.absent => ⟨[], false, false⟩
  | StoredContent.unparseable _ => ⟨[], false, true⟩
  | StoredContent.parsedNonList _ => ⟨[], true, false⟩
  | StoredContent.parsedList l => ⟨l.take MAX_HISTORY_ITEMS_DISPLAYED, false, false⟩

/-- Discriminator: is the stored content a well-formed (array) snapshot? -/
def isParsedList : StoredContent → Bool
  | StoredContent.parsedList _ => true
  | _ => false

/-- Discriminator: is the stored content present, JSON-parseable, but not an
array? -/
def isParsedNonList : StoredContent → Bool
  | StoredContent.parsedNonList _ => true
  | _ => false

/-- Store state: the in-memory history plus the persisted slot, which holds
the deserialization of the last successfully written snapshot (`none` when
the slot is absent/removed).  JSON serialization of a well-formed item list
round-trips, so the slot is modelled by the list itself. -/
structure AppState where
  history : List HistoryItem
  slot : Option (List HistoryItem)
deriving DecidableEq, Repr

/-- The save `useEffect` (both variants, success path):
`setItem(key, JSON.stringify(history.slice(0, MAX_HISTORY_ITEMS_DISPLAYED)))`. -/
def saveHistory (st : AppState) : AppState :=
  { st with slot := some (st.history.take MAX_HISTORY_ITEMS_DISPLAYED) }

/-- An append whose persistence step completes successfully: the
`setHistory` of `handleConvert` followed by the save effect. -/
def appendAndSave (item : HistoryItem) (st : AppState) : AppState :=
  saveHistory { st with history := appendHistory item st.history }

/-- A clear whose persistence step completes successfully: empty in-memory
list and the slot removed entirely (web variant's `handleClearHistory`). -/
def clearAndRemove (_st : AppState) : AppState :=
  { history := [], slot := none }

/-- The list the persisted slot deserializes to on the next load: an absent
slot loads as the empty history. -/
def persistedList (slot : Option (List HistoryItem)) : List HistoryItem :=
  slot.getD []

/-- UI-level state touched by `handleClearHistory`. -/
structure UIState where
  history : List HistoryItem
  slot : Option (List HistoryItem)
  inputValue : String
deriving DecidableEq, Repr

/-- `handleClearHistory` of the web variant (`part_000` lines 164-182):
nothing happens unless the user confirms; on confirmation the in-memory
history and the input field are cleared first, then `removeItem` is
attempted — on failure an error alert is shown (the returned `Bool`) and the
slot keeps its old content. -/
def handleClearHistory (userConfirmed : Bool) (removeOk : Bool)
    (st : UIState) : UIState × Bool :=
  if userConfirmed then
    let st1 : UIState := { st with history := [], inputValue := "" }
    if removeOk then ({ st1 with slot := none }, false)
    else (st1, true)
  else (st, false)

/-- The rendered history table (both variants):
`history.slice(0, MAX_HISTORY_ITEMS_RENDERED).map(renderHistoryItem)`. -/
def renderedHistory (h : List HistoryItem) : List HistoryItem :=
  h.take MAX_HISTORY_ITEMS_RENDERED

/-- A concrete 50-item history used as a witness input for the
label-thinning property. -/
def fiftyItems : List HistoryItem :=
  (List.range 50).map (fun i => ⟨"", i, 0, 0⟩)

/-!
## Theorems
-/

/-- Claim C1: for every positive value `v`, converting with source unit
mg/dL yields `mgdlValue = v` and `mmolValue = v / 18.0182`, and converting
with source unit mmol/L yields `mmolValue = v` and
`mgdlValue = v * 18.0182`.  Equalities are exact over `ℚ`, hence in
particular within the claim's 1e-9 relative floating-point tolerance. -/
theorem convert_correct (v : ℚ) (_hv : 0 < v) :
    (convert v Unit'.mgdl).mgdlValue = v ∧
    (convert v Unit'.mgdl).mmolValue = v / CONVERSION_FACTOR ∧
    (convert v Unit'.mmol).mmolValue = v ∧
    (convert v Unit'.mmol).mgdlValue = v * CONVERSION_FACTOR :=
  ⟨rfl, rfl, rfl, rfl⟩

/-- Witness for `convert_correct` at `v = 120`. -/
theorem convert_correct_witness :
    (convert 120 Unit'.mgdl).mgdlValue = 120 ∧
    (convert 120 Unit'.mgdl).mmolValue = 120 / CONVERSION_FACTOR ∧
    (convert 120 Unit'.mmol).mmolValue = 120 ∧
    (convert 120 Unit'.mmol).mgdlValue = 120 * CONVERSION_FACTOR :=
  convert_correct 120 (by norm_num)

/-- Claim C3: after every append or clear whose persistence step completes
successfully, the persisted snapshot deserializes to exactly the in-memory
history list (an absent slot after a clear deserializes to the empty list on
the next load). -/
theorem persisted_matches_memory (item : HistoryItem) (st : AppState) :
    persistedList (appendAndSave item st).slot = (appendAndSave item st).history ∧
    persistedList (clearAndRemove st).slot = (clearAndRemove st).history := by
  constructor
  · simp [persistedList, appendAndSave, saveHistory, appendHistory, List.take_take]
  · rfl

/-- Claim C5: after affirmative confirmation, `handleClearHistory` empties
the in-memory history (and the input field) unconditionally; on successful
removal the persisted slot is gone, on failed removal the slot keeps its old
content and a non-fatal error alert is surfaced. -/
theorem clear_history_behavior (st : UIState) (removeOk : Bool) :
    (handleClearHistory true removeOk st).1.history = [] ∧
    (handleClearHistory true removeOk st).1.inputValue = "" ∧
    (handleClearHistory true removeOk st).1.slot =
      (if removeOk then none else st.slot) ∧
    (handleClearHistory true removeOk st).2 = !removeOk := by
  cases removeOk <;> simp [handleClearHistory]

/-- Claim C10: the rendered history table shows at most the first 20 items
(`MAX_HISTORY_ITEMS_RENDERED`) of the stored list: its length is
`min(length, 20)` and the stored list is the rendered part followed by the
undisplayed tail. -/
theorem rendered_at_most_20 (h : List HistoryItem) :
    (renderedHistory h).length = min h.length 20 ∧
    h = renderedHistory h ++ h.drop 20 := by
  constructor
  · simp [renderedHistory, MAX_HISTORY_ITEMS_RENDERED, Nat.min_comm]
  · simp [renderedHistory, MAX_HISTORY_ITEMS_RENDERED]

/-- Claim C4 counterexample: for the present slot content that is the raw
text `not a list` (which `JSON.parse` throws on), `load()` does leave the
history empty and lets no exception escape, but it does NOT erase the
persisted slot — the catch branch only alerts; `removeItem` is reached only
from the parsed-but-not-an-array branch.  This refutes the claim's "for
every ... not a well-formed list ... erases the persisted slot". -/
theorem load_corruption_counterexample :
    (loadHistory (StoredContent.unparseable ("not a list"))).history = [] ∧
    (loadHistory (StoredContent.unparseable ("not a list"))).slotErased = false ∧
    (loadHistory (StoredContent.unparseable ("not a list"))).errorAlerted = true :=
  ⟨rfl, rfl, rfl⟩

/-- Claim C4 as amended: for every present slot content that is not a
well-formed list, `load()` results in an empty history and no exception
escapes; the persisted slot is erased exactly when the content parses as
JSON but is not an array (content that fails to parse leaves the slot in
place and surfaces a non-fatal error alert instead). -/
theorem load_corruption_amended (c : StoredContent)
    (hc : isParsedList c = false) :
    (loadHistory c).history = [] ∧
    (loadHistory c).slotErased = isParsedNonList c := by
  cases c <;> simp_all [loadHistory, isParsedList, isParsedNonList]

/-- Witness for `load_corruption_amended` at the spec's concrete scenario:
slot text `"not a list"` (quotes included), which parses to a JSON string,
not an array. -/
theorem load_corruption_amended_witness :
    isParsedList (StoredContent.parsedNonList ("\"not a list\"")) = false ∧
    ((loadHistory (StoredContent.parsedNonList ("\"not a list\""))).history = [] ∧
     (loadHistory (StoredContent.parsedNonList ("\"not a list\""))).slotErased =
       isParsedNonList (StoredContent.parsedNonList ("\"not a list\""))) :=
  ⟨rfl, load_corruption_amended _ rfl⟩

/-- Claim C8 counterexample: the input string `"Infinity"` parses (by
JavaScript `parseFloat`) to positive Infinity, which is not a finite number,
yet the code's validity predicate `!isNaN(v) && v > 0` accepts it.  This
refutes the claim's "holds if and only if the string parses as a finite
number strictly greater than 0" (`specValid` is that spec predicate). -/
theorem input_validity_counterexample :
    isInputValid ("Infinity") = true ∧ specValid ("Infinity") = false := by
  constructor <;> rfl

/-- Claim C8 as amended: the validity predicate holds iff `parseFloat` of
the string yields positive Infinity or a (finite) value strictly greater
than 0 — zero, negative, empty and digit-free content is invalid, but
finiteness is not checked — and `convert()` is a no-op while the predicate
is false. -/
theorem input_validity_amended :
    (∀ s : String, isInputValid s = true ↔
      parseFloatJS s = JSNum.inf ∨
        ∃ q : ℚ, parseFloatJS s = JSNum.num q ∧ 0 < q) ∧
    (∀ (s : String) (u : Unit') (now : Nat) (st : List HistoryItem),
      isInputValid s = false → handleConvert s u now st = st) := by
  constructor
  · intro s
    unfold isInputValid
    cases hp : parseFloatJS s <;> simp
  · intro s u now st hs
    unfold handleConvert
    simp [hs]

/-- Witness for `input_validity_amended`: the invalid empty input leaves the
history unchanged, and the input `"Infinity"` is accepted. -/
theorem input_validity_amended_witness :
    (handleConvert ("") Unit'.mgdl 5 [] = []) ∧ isInputValid ("Infinity") = true :=
  ⟨input_validity_amended.2 ("") Unit'.mgdl 5 [] rfl,
   (input_validity_amended.1 ("Infinity")).mpr (Or.inl rfl)⟩

theorem appendHistory_length (it : HistoryItem) (h : List HistoryItem) :
    (appendHistory it h).length = min (h.length + 1) 100 := by
  simp [appendHistory, MAX_HISTORY_ITEMS_DISPLAYED, List.length_take, Nat.min_comm]
  omega

theorem mem_appendHistory (x it : HistoryItem) (h : List HistoryItem)
    (hx : x ∈ appendHistory it h) : x = it ∨ x ∈ h := by
  have := List.take_subset _ _ hx
  simpa using this

theorem applyAppends_length (items : List HistoryItem) :
    ∀ h : List HistoryItem, h.length ≤ 100 →
      (applyAppends items h).length = min (h.length + items.length) 100 := by
  induction items with
  | nil => intro h hh; simp [applyAppends]; omega
  | cons it rest ih =>
    intro h hh
    have h1 := appendHistory_length it h
    have h2 : (appendHistory it h).length ≤ 100 := by omega
    have h3 := ih (appendHistory it h) h2
    simp only [applyAppends, List.foldl_cons] at h3 ⊢
    rw [h3, h1]
    simp only [List.length_cons]
    omega

theorem newestFirst_append (it : HistoryItem) (h : List HistoryItem)
    (hs : newestFirst h) (hle : ∀ x ∈ h, x.timestamp ≤ it.timestamp) :
    newestFirst (appendHistory it h) :=
  (List.pairwise_cons.mpr ⟨hle, hs⟩).sublist (List.take_sublist _ _)

theorem newestFirst_applyAppends (items : List HistoryItem) :
    ∀ h : List HistoryItem, timestampsMono items → newestFirst h →
      (∀ x ∈ h, ∀ y ∈ items, x.timestamp ≤ y.timestamp) →
      newestFirst (applyAppends items h) := by
  induction items with
  | nil => intro h _ hs _; simpa [applyAppends] using hs
  | cons it rest ih =>
    intro h hmono hs hub
    have hm := List.pairwise_cons.mp hmono
    have hs' : newestFirst (appendHistory it h) :=
      newestFirst_append it h hs (fun x hx => hub x hx it (List.mem_cons_self it rest))
    have hub' : ∀ x ∈ appendHistory it h, ∀ y ∈ rest, x.timestamp ≤ y.timestamp := by
      intro x hx y hy
      rcases mem_appendHistory x it h hx with rfl | hxh
      · exact hm.1 y hy
      · exact hub x hxh y (List.mem_cons_of_mem _ hy)
    have := ih (appendHistory it h) hm.2 hs' hub'
    simpa [applyAppends, List.foldl_cons] using this

/-- Claim C2: starting from an empty history, a sequence of `N` appends
(with nondecreasing creation timestamps, as successive `Date.now()` calls
are) yields a history of length `min(N, 100)` ordered newest-first by
timestamp, and a single append can never push any history past 100 items. -/
theorem history_capacity_and_order (items : List HistoryItem)
    (it : HistoryItem) (h : List HistoryItem) (hmono : timestampsMono items) :
    (applyAppends items []).length = min items.length 100 ∧
    newestFirst (applyAppends items []) ∧
    (appendHistory it h).length ≤ 100 := by
  refine ⟨?_, ?_, ?_⟩
  · simpa using applyAppends_length items [] (by simp)
  · exact newestFirst_applyAppends items [] hmono (by simp [newestFirst]) (by simp)
  · have := appendHistory_length it h
    omega

/-- Witness for `history_capacity_and_order` on a concrete two-append
sequence. -/
theorem history_capacity_and_order_witness :
    (applyAppends [⟨"1", 1, 1, 1⟩, ⟨"2", 2, 2, 2⟩] []).length =
      min ([⟨"1", 1, 1, 1⟩, ⟨"2", 2, 2, 2⟩] : List HistoryItem).length 100 ∧
    newestFirst (applyAppends [⟨"1", 1, 1, 1⟩, ⟨"2", 2, 2, 2⟩] []) ∧
    (appendHistory ⟨"1", 1, 1, 1⟩ []).length ≤ 100 :=
  history_capacity_and_order [⟨"1", 1, 1, 1⟩, ⟨"2", 2, 2, 2⟩]
    ⟨"1", 1, 1, 1⟩ [] (by decide)

/-- Claim C7: with fewer than 2 history entries (including the empty
history) both chart builders produce the insufficient-data signal (`none`),
and the thinning core invoked directly on an empty series also returns the
signal instead of failing (its `max 1 _` guards the zero-length step). -/
theorem chart_insufficient_data (fmt : Nat → String) (u : Unit')
    (h : List HistoryItem) (hlt : h.length < MIN_POINTS_FOR_CHART) :
    chartKitData fmt u h = none ∧
    rechartsData fmt u h = none ∧
    chartCore fmt (oppositeUnit u) [] = none := by
  refine ⟨?_, ?_, rfl⟩
  · simp [chartKitData, hlt]
  · simp [rechartsData, hlt]

/-- Witness for `chart_insufficient_data` at a one-item history. -/
theorem chart_insufficient_data_witness :
    ([⟨"1", 1, 1, 1⟩] : List HistoryItem).length < MIN_POINTS_FOR_CHART ∧
    (chartKitData (fun _ => "t") Unit'.mgdl [⟨"1", 1, 1, 1⟩] = none ∧
     rechartsData (fun _ => "t") Unit'.mgdl [⟨"1", 1, 1, 1⟩] = none ∧
     chartCore (fun _ => "t") (oppositeUnit Unit'.mgdl) [] = none) :=
  ⟨by decide, chart_insufficient_data (fun _ => "t") Unit'.mgdl _ (by decide)⟩

theorem thinLoop_snd_subset (fmt : Nat → String) (cu : Unit') (n step : Nat)
    (l : List HistoryItem) :
    ∀ i : Nat, ∀ d ∈ (thinLoop fmt cu n step l i).2, ∃ it ∈ l, d = yVal cu it := by
  induction l with
  | nil => intro i d hd; simp [thinLoop] at hd
  | cons x xs ih =>
    intro i d hd
    simp only [thinLoop] at hd
    split_ifs at hd
    · rcases List.mem_cons.mp hd with rfl | hd'
      · exact ⟨x, List.mem_cons_self _ _, rfl⟩
      · obtain ⟨it, hit, heq⟩ := ih (i + 1) d hd'
        exact ⟨it, List.mem_cons_of_mem _ hit, heq⟩
    · rcases List.mem_cons.mp hd with rfl | hd'
      · exact ⟨x, List.mem_cons_self _ _, rfl⟩
      · obtain ⟨it, hit, heq⟩ := ih (i + 1) d hd'
        exact ⟨it, List.mem_cons_of_mem _ hit, heq⟩
    · obtain ⟨it, hit, heq⟩ := ih (i + 1) d hd
      exact ⟨it, List.mem_cons_of_mem _ hit, heq⟩

theorem headD_mem (s : List HistoryItem) (hs : s ≠ []) : s.headD dfltItem ∈ s := by
  cases s with
  | nil => exact absurd rfl hs
  | cons x xs => exact List.mem_cons_self _ _

theorem getLastD_mem (s : List HistoryItem) (hs : s ≠ []) :
    s.getLastD dfltItem ∈ s := by
  rw [List.getLastD_eq_getLast? _ _, List.getLast?_eq_getLast s hs]
  exact List.getLast_mem hs

theorem forceFirst_snd_subset (fmt : Nat → String) (cu : Unit')
    (s : List HistoryItem) (p : List String × List ℚ) (hs : s ≠ [])
    (hmem : ∀ d ∈ p.2, ∃ it ∈ s, d = yVal cu it) :
    ∀ d ∈ (forceFirst fmt cu s p).2, ∃ it ∈ s, d = yVal cu it := by
  intro d hd
  unfold forceFirst at hd
  split_ifs at hd
  · rcases List.mem_cons.mp hd with rfl | hd'
    · exact ⟨s.headD dfltItem, headD_mem s hs, rfl⟩
    · exact hmem d hd'
  · exact hmem d hd

theorem forceLast_snd_subset (fmt : Nat → String) (cu : Unit')
    (s : List HistoryItem) (p : List String × List ℚ) (hs : s ≠ [])
    (hmem : ∀ d ∈ p.2, ∃ it ∈ s, d = yVal cu it) :
    ∀ d ∈ (forceLast fmt cu s p).2, ∃ it ∈ s, d = yVal cu it := by
  intro d hd
  unfold forceLast at hd
  split_ifs at hd
  · rcases List.mem_append.mp hd with hd' | hd'
    · exact hmem d hd'
    · rcases List.mem_singleton.mp hd' with rfl
      exact ⟨s.getLastD dfltItem, getLastD_mem s hs, rfl⟩
  · exact hmem d hd

theorem chartCore_snd_subset (fmt : Nat → String) (cu : Unit')
    (s : List HistoryItem) (ls : List String) (ds : List ℚ) (hs : s ≠ [])
    (hc : chartCore fmt cu s = some (ls, ds)) :
    ∀ d ∈ ds, ∃ it ∈ s, d = yVal cu it := by
  have hthin := thinLoop_snd_subset fmt cu s.length
    (max 1 (s.length / MAX_CHART_LABELS)) s 0
  have hforce : ∀ d ∈ (forceEndpoints fmt cu s
      (thinLoop fmt cu s.length (max 1 (s.length / MAX_CHART_LABELS)) s 0).1
      (thinLoop fmt cu s.length (max 1 (s.length / MAX_CHART_LABELS)) s 0).2).2,
      ∃ it ∈ s, d = yVal cu it := by
    unfold forceEndpoints
    split_ifs
    · exact forceLast_snd_subset fmt cu s _ hs
        (forceFirst_snd_subset fmt cu s _ hs hthin)
    · exact hthin
  intro d hd
  simp only [chartCore] at hc
  split_ifs at hc
  simp only [Option.some.injEq, Prod.mk.injEq] at hc
  exact hforce d (hc.2 ▸ hd)

/-- Claim C9: the y-value charted for each point is the unit opposite the
input-unit selection.  For the web builder each produced point's `yValue`
equals its value in the opposite unit; for the native builder every charted
data point is the opposite-unit value of some history item. -/
theorem chart_opposite_unit :
    (∀ (fmt : Nat → String) (u : Unit') (h : List HistoryItem)
        (pts : List ChartDataPoint), rechartsData fmt u h = some pts →
        ∀ p ∈ pts, p.yValue =
          (match u with
           | Unit'.mgdl => p.mmolValue
           | Unit'.mmol => p.mgdlValue)) ∧
    (∀ (fmt : Nat → String) (u : Unit') (h : List HistoryItem)
        (ls : List String) (ds : List ℚ), chartKitData fmt u h = some (ls, ds) →
        ∀ d ∈ ds, ∃ it ∈ h, d = yVal (oppositeUnit u) it) := by
  constructor
  · intro fmt u h pts hpts p hp
    unfold rechartsData at hpts
    split_ifs at hpts
    simp only [Option.some.injEq] at hpts
    subst hpts
    obtain ⟨it, _, rfl⟩ := List.mem_map.mp hp
    cases u <;> rfl
  · intro fmt u h ls ds hc d hd
    have hlen : ¬ h.length < MIN_POINTS_FOR_CHART := by
      intro hcon
      simp [chartKitData, hcon] at hc
    have hc' : chartCore fmt (oppositeUnit u) (sortHist h) = some (ls, ds) := by
      simpa [chartKitData, hlen] using hc
    have hs : sortHist h ≠ [] := by
      intro hnil
      have hlen2 : (sortHist h).length = h.length :=
        (List.perm_insertionSort tsLe h).length_eq
      rw [hnil] at hlen2
      simp at hlen2
      simp [MIN_POINTS_FOR_CHART] at hlen
      omega
    obtain ⟨it, hit, heq⟩ := chartCore_snd_subset fmt (oppositeUnit u)
      (sortHist h) ls ds hs hc' d hd
    exact ⟨it, ((List.perm_insertionSort tsLe h).mem_iff).mp hit, heq⟩

/-- Witness for `chart_opposite_unit` at a concrete two-item history with
mg/dL selected as the input unit: the charted values are the mmol/L ones. -/
theorem chart_opposite_unit_witness :
    rechartsData (fun _ => "t") Unit'.mgdl
        [⟨"1", 1, 100, 5⟩, ⟨"2", 2, 200, 11⟩] =
      some [⟨1, "t", 100, 5, 5⟩, ⟨2, "t", 200, 11, 11⟩] ∧
    (⟨1, "t", 100, 5, 5⟩ : ChartDataPoint).yValue =
      (⟨1, "t", 100, 5, 5⟩ : ChartDataPoint).mmolValue :=
  ⟨by decide,
   chart_opposite_unit.1 (fun _ => "t") Unit'.mgdl
     [⟨"1", 1, 100, 5⟩, ⟨"2", 2, 200, 11⟩]
     [⟨1, "t", 100, 5, 5⟩, ⟨2, "t", 200, 11, 11⟩] (by decide)
     ⟨1, "t", 100, 5, 5⟩ (by decide)⟩

theorem thinLoop_cons (fmt : Nat → String) (cu : Unit') (n step : Nat)
    (x : HistoryItem) (rest : List HistoryItem) (idx : Nat) :
    thinLoop fmt cu n step (x :: rest) idx =
      if keepIndex n step idx then
        (fmt x.timestamp :: (thinLoop fmt cu n step rest (idx + 1)).1,
         yVal cu x :: (thinLoop fmt cu n step rest (idx + 1)).2)
      else if n ≤ MAX_CHART_LABELS then
        (fmt x.timestamp :: (thinLoop fmt cu n step rest (idx + 1)).1,
         yVal cu x :: (thinLoop fmt cu n step rest (idx + 1)).2)
      else
        thinLoop fmt cu n step rest (idx + 1) := rfl

theorem thinLoop_length_eq (fmt : Nat → String) (cu : Unit') (n step : Nat)
    (l : List HistoryItem) :
    ∀ i : Nat, (thinLoop fmt cu n step l i).1.length =
      (thinLoop fmt cu n step l i).2.length := by
  induction l with
  | nil => intro i; rfl
  | cons x xs ih =>
    intro i
    simp only [thinLoop]
    split_ifs <;> simp [ih (i + 1)]

theorem thinLoop_fst_length (fmt : Nat → String) (cu : Unit') (n step : Nat)
    (l : List HistoryItem) :
    ∀ i : Nat, (thinLoop fmt cu n step l i).1.length =
      ((List.range' i l.length).filter
        (fun j => keepIndex n step j || decide (n ≤ MAX_CHART_LABELS))).length := by
  induction l with
  | nil => intro i; rfl
  | cons x xs ih =>
    intro i
    simp only [List.length_cons, List.range'_succ, List.filter_cons]
    by_cases h1 : keepIndex n step i = true
    · simp only [thinLoop, if_pos h1, h1]
      simp [ih (i + 1)]
    · by_cases h2 : n ≤ MAX_CHART_LABELS
      · simp only [thinLoop, if_neg h1, if_pos h2]
        simp [h1, h2, ih (i + 1)]
      · simp only [thinLoop, if_neg h1, if_neg h2]
        simp [h1, h2, ih (i + 1)]

theorem thinLoop_head (fmt : Nat → String) (cu : Unit') (n step : Nat)
    (x : HistoryItem) (xs : List HistoryItem) :
    (thinLoop fmt cu n step (x :: xs) 0).1.head? = some (fmt x.timestamp) ∧
    (thinLoop fmt cu n step (x :: xs) 0).2.head? = some (yVal cu x) := by
  have hk : keepIndex n step 0 = true := by simp [keepIndex]
  simp [thinLoop, hk]

theorem thinLoop_last (fmt : Nat → String) (cu : Unit') (n step : Nat)
    (l : List HistoryItem) :
    ∀ (i : Nat) (hne : l ≠ []), i + l.length = n →
      (thinLoop fmt cu n step l i).1.getLast? =
        some (fmt (l.getLast hne).timestamp) ∧
      (thinLoop fmt cu n step l i).2.getLast? =
        some (yVal cu (l.getLast hne)) := by
  induction l with
  | nil => intro i hne _; exact absurd rfl hne
  | cons x xs ih =>
    intro i hne hn
    cases xs with
    | nil =>
      simp only [List.length_cons, List.length_nil] at hn
      have hk : keepIndex n step i = true := by
        simp [keepIndex]
        omega
      simp [thinLoop, hk, List.getLast]
    | cons y ys =>
      have hne' : (y :: ys) ≠ [] := List.cons_ne_nil y ys
      have hn' : (i + 1) + (y :: ys).length = n := by
        simp only [List.length_cons] at hn ⊢
        omega
      obtain ⟨h1, h2⟩ := ih (i + 1) hne' hn'
      have hgl : (x :: y :: ys).getLast hne = (y :: ys).getLast hne' :=
        List.getLast_cons hne'
      rw [hgl, thinLoop_cons]
      split_ifs
      · constructor
        · simp [List.getLast?_cons, h1]
        · simp [List.getLast?_cons, h2]
      · constructor
        · simp [List.getLast?_cons, h1]
        · simp [List.getLast?_cons, h2]
      · exact ⟨h1, h2⟩

theorem forceFirst_eq_self (fmt : Nat → String) (cu : Unit')
    (s : List HistoryItem) (p : List String × List ℚ)
    (heq : p.1.headD ("") = fmt (s.headD dfltItem).timestamp) :
    forceFirst fmt cu s p = p := by
  unfold forceFirst
  split_ifs with hcon
  · exact absurd heq hcon
  · rfl

theorem forceLast_eq_self (fmt : Nat → String) (cu : Unit')
    (s : List HistoryItem) (p : List String × List ℚ)
    (heq : p.1.getLastD ("") = fmt (s.getLastD dfltItem).timestamp) :
    forceLast fmt cu s p = p := by
  unfold forceLast
  split_ifs with hcon
  · exact absurd heq hcon
  · rfl

theorem chartCore_length50 (fmt : Nat → String) (cu : Unit')
    (s : List HistoryItem) (hs50 : s.length = 50) :
    chartCore fmt cu s =
      some ((thinLoop fmt cu 50 8 s 0).1, (thinLoop fmt cu 50 8 s 0).2) ∧
    (thinLoop fmt cu 50 8 s 0).1.length = 8 ∧
    (thinLoop fmt cu 50 8 s 0).2.length = 8 := by
  obtain ⟨x, xs, rfl⟩ : ∃ x xs, s = x :: xs := by
    cases s with
    | nil => simp at hs50
    | cons a as => exact ⟨a, as, rfl⟩
  have hne : (x :: xs) ≠ [] := List.cons_ne_nil x xs
  have hl1 : (thinLoop fmt cu 50 8 (x :: xs) 0).1.length = 8 := by
    rw [thinLoop_fst_length fmt cu 50 8 (x :: xs) 0, hs50]
    decide
  have hl2 : (thinLoop fmt cu 50 8 (x :: xs) 0).2.length = 8 := by
    rw [← thinLoop_length_eq fmt cu 50 8 (x :: xs) 0]
    exact hl1
  have hhead := thinLoop_head fmt cu 50 8 x xs
  have hlast := thinLoop_last fmt cu 50 8 (x :: xs) 0 hne (by simpa using hs50)
  have hff : forceFirst fmt cu (x :: xs)
      ((thinLoop fmt cu 50 8 (x :: xs) 0).1, (thinLoop fmt cu 50 8 (x :: xs) 0).2) =
      ((thinLoop fmt cu 50 8 (x :: xs) 0).1, (thinLoop fmt cu 50 8 (x :: xs) 0).2) := by
    refine forceFirst_eq_self fmt cu _ _ ?_
    simp [List.headD_eq_head?, hhead.1]
  have hfl : forceLast fmt cu (x :: xs)
      ((thinLoop fmt cu 50 8 (x :: xs) 0).1, (thinLoop fmt cu 50 8 (x :: xs) 0).2) =
      ((thinLoop fmt cu 50 8 (x :: xs) 0).1, (thinLoop fmt cu 50 8 (x :: xs) 0).2) := by
    refine forceLast_eq_self fmt cu _ _ ?_
    simp only [List.getLastD_eq_getLast?, List.getLast?_eq_getLast _ hne]
    simp [hlast.1]
  have hforce : forceEndpoints fmt cu (x :: xs)
      (thinLoop fmt cu 50 8 (x :: xs) 0).1 (thinLoop fmt cu 50 8 (x :: xs) 0).2 =
      ((thinLoop fmt cu 50 8 (x :: xs) 0).1, (thinLoop fmt cu 50 8 (x :: xs) 0).2) := by
    unfold forceEndpoints
    rw [if_pos ⟨by omega, by omega⟩]
    rw [hff, hfl]
  refine ⟨?_, hl1, hl2⟩
  simp only [chartCore]
  rw [hs50]
  have hstep : max 1 (50 / MAX_CHART_LABELS) = 8 := rfl
  rw [hstep, hforce]
  have htake : (thinLoop fmt cu 50 8 (x :: xs) 0).1.take
      (thinLoop fmt cu 50 8 (x :: xs) 0).2.length =
      (thinLoop fmt cu 50 8 (x :: xs) 0).1 := by
    rw [hl2]
    exact List.take_of_length_le (by omega)
  simp [htake, hl1, MIN_POINTS_FOR_CHART]

/-- Claim C6: for every history of length 50 the label-thinned chart series
exists, its label list and data-point list both have length 8 (which is at
most the claimed bound of 6 plus 2 forced endpoints), and its first and
last entries are the chronologically first and last points of the sorted
history (both the label and the charted value). -/
theorem chart_thinning_50 (fmt : Nat → String) (u : Unit')
    (h : List HistoryItem) (h50 : h.length = 50) :
    (chartKitData fmt u h).isSome = true ∧
    ((chartKitData fmt u h).getD ([], [])).1.length = 8 ∧
    ((chartKitData fmt u h).getD ([], [])).2.length = 8 ∧
    ((chartKitData fmt u h).getD ([], [])).1.head? =
      ((sortHist h).head?.map (fun it => fmt it.timestamp)) ∧
    ((chartKitData fmt u h).getD ([], [])).2.head? =
      ((sortHist h).head?.map (yVal (oppositeUnit u))) ∧
    ((chartKitData fmt u h).getD ([], [])).1.getLast? =
      ((sortHist h).getLast?.map (fun it => fmt it.timestamp)) ∧
    ((chartKitData fmt u h).getD ([], [])).2.getLast? =
      ((sortHist h).getLast?.map (yVal (oppositeUnit u))) := by
  have hs50 : (sortHist h).length = 50 := by
    rw [sortHist, (List.perm_insertionSort tsLe h).length_eq, h50]
  obtain ⟨hcc, hl1, hl2⟩ := chartCore_length50 fmt (oppositeUnit u) (sortHist h) hs50
  have hck : chartKitData fmt u h = chartCore fmt (oppositeUnit u) (sortHist h) := by
    simp [chartKitData, h50, MIN_POINTS_FOR_CHART]
  obtain ⟨x, xs, hsx⟩ : ∃ x xs, sortHist h = x :: xs := by
    cases hs : sortHist h with
    | nil => rw [hs] at hs50; simp at hs50
    | cons a as => exact ⟨a, as, rfl⟩
  have hne : sortHist h ≠ [] := by rw [hsx]; exact List.cons_ne_nil _ _
  have hhead := thinLoop_head fmt (oppositeUnit u) 50 8 x xs
  have hlast := thinLoop_last fmt (oppositeUnit u) 50 8 (sortHist h) 0 hne
    (by simpa using hs50)
  rw [hck, hcc]
  simp only [Option.isSome_some, Option.getD_some]
  refine ⟨trivial, hl1, hl2, ?_, ?_, ?_, ?_⟩
  · rw [hsx]
    rw [hhead.1]
    simp
  · rw [hsx]
    rw [hhead.2]
    simp
  · rw [hlast.1, List.getLast?_eq_getLast _ hne]
    simp
  · rw [hlast.2, List.getLast?_eq_getLast _ hne]
    simp

/-- Witness for `chart_thinning_50` on a concrete 50-item history. -/
theorem chart_thinning_50_witness :
    fiftyItems.length = 50 ∧
    ((chartKitData (fun _ => "") Unit'.mgdl fiftyItems).isSome = true ∧
     ((chartKitData (fun _ => "") Unit'.mgdl fiftyItems).getD ([], [])).1.length = 8 ∧
     ((chartKitData (fun _ => "") Unit'.mgdl fiftyItems).getD ([], [])).2.length = 8 ∧
     ((chartKitData (fun _ => "") Unit'.mgdl fiftyItems).getD ([], [])).1.head? =
       ((sortHist fiftyItems).head?.map (fun _ => "")) ∧
     ((chartKitData (fun _ => "") Unit'.mgdl fiftyItems).getD ([], [])).2.head? =
       ((sortHist fiftyItems).head?.map (yVal (oppositeUnit Unit'.mgdl))) ∧
     ((chartKitData (fun _ => "") Unit'.mgdl fiftyItems).getD ([], [])).1.getLast? =
       ((sortHist fiftyItems).getLast?.map (fun _ => "")) ∧
     ((chartKitData (fun _ => "") Unit'.mgdl fiftyItems).getD ([], [])).2.getLast? =
       ((sortHist fiftyItems).getLast?.map (yVal (oppositeUnit Unit'.mgdl)))) :=
  ⟨by simp [fiftyItems],
   chart_thinning_50 (fun _ => "") Unit'.mgdl fiftyItems (by simp [fiftyItems])⟩

end GlucoSwap
